import Mathlib

set_option autoImplicit false

/-!
Verification of the recipe-management core: the tag resolver
(RecipeSerializer.get_or_create_tags), recipe creation and update
(RecipeSerializer.create / RecipeSerializer.update in
app/recipe/serializers.py), and the user-scoped listing querysets
(RecipeViewSet.get_queryset / TagViewSet.get_queryset in
app/recipe/views.py), shallowly embedded over an explicit database state.
-/

namespace RecipeApp

abbrev UserId := Nat
abbrev TagId := Nat
abbrev IngredientId := Nat
abbrev RecipeId := Nat

/-- Modelled from the spec: core.models.Tag is absent from the sources; per
the data model a Tag is owned by exactly one User and carries a name, with
an auto-increment integer primary key. -/
structure Tag where
  id : TagId
  user : UserId
  name : String
deriving DecidableEq, Repr

/-- Modelled from the spec: core.models.Ingredient is absent from the
sources; same shape as Tag (owner plus name, integer primary key). -/
structure Ingredient where
  id : IngredientId
  user : UserId
  name : String
deriving DecidableEq, Repr

/-- Modelled from the spec: core.models.Recipe is absent from the sources.
Per the data model and the tests, a Recipe is owned by one User, has scalar
fields title, time_minutes, price, description, link, and many-to-many sets
of Tag and Ingredient references (price held abstractly as an integer of
cents, never computed with). -/
structure Recipe where
  id : RecipeId
  user : UserId
  title : String
  time_minutes : Nat
  price : Int
  description : String
  link : String
  tags : List TagId
  ingredients : List IngredientId
deriving DecidableEq, Repr

/-- Database state: the stored rows of each table plus the auto-increment
counters for Tag and Recipe primary keys. -/
structure DB where
  tags : List Tag
  ingredients : List Ingredient
  recipes : List Recipe
  nextTagId : Nat
  nextRecipeId : Nat
deriving DecidableEq, Repr

/-- Lookup of a Tag row matching (user, name): the query performed by
Tag.objects.get_or_create(user=auth_user, name=...). Returns the first
matching row. -/
def tagLookup (u : UserId) (n : String) (l : List Tag) : Option Tag :=
  l.find? (fun t => t.user == u && t.name == n)

/-- Embedding of Tag.objects.get_or_create(user=u, name=n): reuse the
existing row when one matches (user, name), otherwise insert a fresh row
with the next primary key. Returns the row together with the new state. -/
def Tag_get_or_create (u : UserId) (n : String) (db : DB) : Tag × DB :=
  match tagLookup u n db.tags with
  | some t => (t, db)
  | none =>
    let t : Tag := ⟨db.nextTagId, u, n⟩
    (t, { db with tags := db.tags ++ [t], nextTagId := db.nextTagId + 1 })

/-- Django many-to-many add: recipe.tags.add(tag_obj) is a set insert, a
no-op when the reference is already attached. -/
def Recipe.addTag (r : Recipe) (tid : TagId) : Recipe :=
  if tid ∈ r.tags then r else { r with tags := r.tags ++ [tid] }

/-- Apply an in-place mutation to every stored recipe with the given
primary key (there is at most one in a well-formed state). -/
def mapRecipe (rid : RecipeId) (f : Recipe → Recipe) (db : DB) : DB :=
  { db with recipes := db.recipes.map (fun r => if r.id = rid then f r else r) }

/-- Retrieval of a stored recipe by primary key. -/
def findRecipe (rid : RecipeId) (db : DB) : Option Recipe :=
  db.recipes.find? (fun r => r.id == rid)

/-- Embedding of RecipeSerializer.get_or_create_tags(tags, recipe): for
each name in order, Tag.objects.get_or_create resolves it to a row
(tag_obj) and recipe.tags.add(tag_obj) attaches it. The returned list
records the tag_obj primary key of each loop iteration, in iteration
order. -/
def get_or_create_tags (u : UserId) (names : List String) (recipe : RecipeId)
    (db : DB) : DB × List TagId :=
  match names with
  | [] => (db, [])
  | n :: rest =>
    let tc := Tag_get_or_create u n db
    let db2 := mapRecipe recipe (fun r => r.addTag tc.1.id) tc.2
    let res := get_or_create_tags u rest recipe db2
    (res.1, tc.1.id :: res.2)

/-- Scalar fields of a recipe payload (the serializer validated_data minus
the nested tags key). -/
structure RecipeFields where
  title : String
  time_minutes : Nat
  price : Int
  description : String
  link : String
deriving DecidableEq, Repr

/-- Embedding of RecipeSerializer.create together with
RecipeViewSet.perform_create (which injects user=request.user): pop the
nested tags, insert the new Recipe row with empty many-to-many sets, then
resolve and attach the tag names. Returns the new primary key and state. -/
def RecipeSerializer_create (u : UserId) (fields : RecipeFields)
    (tags : List String) (db : DB) : RecipeId × DB :=
  let recipe : Recipe :=
    ⟨db.nextRecipeId, u, fields.title, fields.time_minutes, fields.price,
      fields.description, fields.link, [], []⟩
  let db1 := { db with recipes := db.recipes ++ [recipe],
                       nextRecipeId := db.nextRecipeId + 1 }
  (recipe.id, (get_or_create_tags u tags recipe.id db1).1)

/-- POST /recipes as seen by the serializer: RecipeSerializer.Meta.fields
is [id, title, time_minutes, price, link, tags] (plus description on the
detail serializer), with no ingredients entry, so an ingredient_names list
in the request payload is discarded during validation and never reaches
RecipeSerializer.create. -/
def postRecipe (u : UserId) (fields : RecipeFields) (tag_names : List String)
    (ingredient_names : List String) (db : DB) : RecipeId × DB :=
  RecipeSerializer_create u fields tag_names db

/-- Partial scalar payload of an update: a key absent from validated_data
is represented by none. -/
structure ScalarPayload where
  title : Option String
  time_minutes : Option Nat
  price : Option Int
  description : Option String
  link : Option String
deriving DecidableEq, Repr

/-- Embedding of the setattr loop of RecipeSerializer.update: each key
present in validated_data overwrites the corrresponding attribute. -/
def applyScalars (r : Recipe) (p : ScalarPayload) : Recipe :=
  let r1 := match p.title with | some v => { r with title := v } | none => r
  let r2 := match p.time_minutes with
            | some v => { r1 with time_minutes := v } | none => r1
  let r3 := match p.price with | some v => { r2 with price := v } | none => r2
  let r4 := match p.description with
            | some v => { r3 with description := v } | none => r3
  match p.link with | some v => { r4 with link := v } | none => r4

/-- Embedding of RecipeSerializer.update: validated_data.pop(tags, None);
when the tags key is present (even as an empty list) the instance tag set
is cleared and repopulated via get_or_create_tags; when absent it is left
alone. Then the remaining scalar keys are set and the instance saved. -/
def RecipeSerializer_update (rid : RecipeId) (tags : Option (List String))
    (p : ScalarPayload) (u : UserId) (db : DB) : DB :=
  let db1 := match tags with
    | some names =>
      (get_or_create_tags u names rid
        (mapRecipe rid (fun r => { r with tags := [] }) db)).1
    | none => db
  mapRecipe rid (fun r => applyScalars r p) db1

/-- Insert an element into a list sorted descending by the key. -/
def insertDesc {α κ : Type} [LinearOrder κ] (key : α → κ) (a : α) :
    List α → List α
  | [] => [a]
  | b :: l => if key b ≤ key a then a :: b :: l else b :: insertDesc key a l

/-- Sort a list descending by the key (the order_by(-field) of a queryset). -/
def sortDescBy {α κ : Type} [LinearOrder κ] (key : α → κ) : List α → List α
  | [] => []
  | a :: l => insertDesc key a (sortDescBy key l)

/-- Embedding of RecipeViewSet.get_queryset: the stored recipes filtered to
user=request.user, ordered by -id. -/
def RecipeViewSet_get_queryset (request_user : UserId) (db : DB) :
    List Recipe :=
  sortDescBy (fun r => r.id)
    (db.recipes.filter (fun r => r.user == request_user))

/-- Embedding of TagViewSet.get_queryset: the stored tags filtered to
user=request.user, ordered by -name. The assigned_only request query
parameter is passed in so claims can mention it, but the source body never
reads any query parameter, so it is unused. -/
def TagViewSet_get_queryset (request_user : UserId) (assigned_only : Bool)
    (db : DB) : List Tag :=
  sortDescBy (fun t => t.name)
    (db.tags.filter (fun t => t.user == request_user))

/-- Meta.fields of RecipeSerializer. -/
def RecipeSerializer_fields : List String :=
  ["id", "title", "time_minutes", "price", "link", "tags"]

/-- Meta.fields of RecipeDetailSerializer: the list fields plus
description. -/
def RecipeDetailSerializer_fields : List String :=
  RecipeSerializer_fields ++ ["description"]

/-- Embedding of RecipeViewSet.get_serializer_class, represented by the
Meta.fields of the class it returns: RecipeSerializer for the list action,
RecipeDetailSerializer (the static serializer_class) for every other
action. -/
def RecipeViewSet_get_serializer_class (action : String) : List String :=
  if action = "list" then RecipeSerializer_fields
  else RecipeDetailSerializer_fields

/-- GET /recipes: the list action evaluates the queryset and serializes it;
it performs no write, so the state passes through unchanged. -/
def RecipeViewSet_list (request_user : UserId) (db : DB) :
    DB × List Recipe :=
  (db, RecipeViewSet_get_queryset request_user db)

/-- Object lookup of the generic detail routes: the framework get_object
resolves the URL primary key within the queryset returned by
RecipeViewSet.get_queryset, so a recipe outside the user-scoped queryset
is a lookup miss (HTTP 404). -/
def RecipeViewSet_get_object (request_user : UserId) (rid : RecipeId)
    (db : DB) : Option Recipe :=
  (RecipeViewSet_get_queryset request_user db).find? (fun r => r.id == rid)

/-- PATCH /recipes/(id): look up the object in the user-scoped queryset; a
miss returns 404 with nothing written (Bool false), a hit runs
RecipeSerializer.update. -/
def RecipeViewSet_update_action (request_user : UserId) (rid : RecipeId)
    (tags : Option (List String)) (p : ScalarPayload) (db : DB) :
    DB × Bool :=
  match RecipeViewSet_get_object request_user rid db with
  | none => (db, false)
  | some _ => (RecipeSerializer_update rid tags p request_user db, true)

/-! ## Helper lemmas about the sorting used by order_by -/

theorem perm_insertDesc {α κ : Type} [LinearOrder κ] (key : α → κ) (a : α) :
    ∀ l : List α, List.Perm (insertDesc key a l) (a :: l)
  | [] => List.Perm.refl _
  | b :: t => by
    rw [insertDesc]
    by_cases hba : key b ≤ key a
    · rw [if_pos hba]
    · rw [if_neg hba]
      exact ((perm_insertDesc key a t).cons b).trans (List.Perm.swap a b t)

theorem perm_sortDescBy {α κ : Type} [LinearOrder κ] (key : α → κ) :
    ∀ l : List α, List.Perm (sortDescBy key l) l
  | [] => List.Perm.refl _
  | a :: t => by
    rw [sortDescBy]
    exact (perm_insertDesc key a (sortDescBy key t)).trans
      ((perm_sortDescBy key t).cons a)

theorem pairwise_insertDesc {α κ : Type} [LinearOrder κ] (key : α → κ) (a : α)
    (l : List α) (h : l.Pairwise (fun x y => key y ≤ key x)) :
    (insertDesc key a l).Pairwise (fun x y => key y ≤ key x) := by
  induction l with
  | nil => simp [insertDesc]
  | cons b t ih =>
    rw [List.pairwise_cons] at h
    rw [insertDesc]
    by_cases hba : key b ≤ key a
    · rw [if_pos hba]
      refine List.Pairwise.cons ?_ (List.Pairwise.cons h.1 h.2)
      intro y hy
      rcases List.mem_cons.1 hy with hyb | hyt
      · rw [hyb]; exact hba
      · exact le_trans (h.1 y hyt) hba
    · rw [if_neg hba]
      refine List.Pairwise.cons ?_ (ih h.2)
      intro y hy
      have hy2 : y ∈ a :: t := (perm_insertDesc key a t).mem_iff.1 hy
      rcases List.mem_cons.1 hy2 with hya | hyt
      · rw [hya]; exact le_of_not_le hba
      · exact h.1 y hyt

theorem pairwise_sortDescBy {α κ : Type} [LinearOrder κ] (key : α → κ) :
    ∀ l : List α, (sortDescBy key l).Pairwise (fun x y => key y ≤ key x)
  | [] => List.Pairwise.nil
  | a :: t => pairwise_insertDesc key a (sortDescBy key t)
      (pairwise_sortDescBy key t)

theorem pairwise_lt_of_le_of_nodup {α κ : Type} [LinearOrder κ] (key : α → κ) :
    ∀ l : List α, l.Pairwise (fun x y => key y ≤ key x) →
      (l.map key).Nodup → l.Pairwise (fun x y => key y < key x)
  | [], _, _ => List.Pairwise.nil
  | a :: t, h, hn => by
    rw [List.pairwise_cons] at h
    rw [List.map_cons, List.nodup_cons] at hn
    refine List.Pairwise.cons ?_ (pairwise_lt_of_le_of_nodup key t h.2 hn.2)
    intro y hy
    refine lt_of_le_of_ne (h.1 y hy) ?_
    intro hkey
    exact hn.1 (hkey ▸ List.mem_map_of_mem key hy)

/-! ## Helper lemmas about tag lookup and get_or_create -/

/-- The (user, name) pairs of the stored tag rows; the per-user uniqueness
invariant says this list has no duplicate. -/
def tagPairs (l : List Tag) : List (UserId × String) :=
  l.map (fun t => (t.user, t.name))

theorem tagLookup_some {u : UserId} {n : String} {l : List Tag} {t : Tag}
    (h : tagLookup u n l = some t) : t ∈ l ∧ t.user = u ∧ t.name = n := by
  refine ⟨List.mem_of_find?_eq_some h, ?_⟩
  have hp := List.find?_some h
  simp only [Bool.and_eq_true, beq_iff_eq] at hp
  exact hp

theorem tagLookup_none {u : UserId} {n : String} {l : List Tag}
    (h : tagLookup u n l = none) : ∀ t ∈ l, ¬(t.user = u ∧ t.name = n) := by
  rw [tagLookup, List.find?_eq_none] at h
  intro t ht hc
  have := h t ht
  simp only [Bool.and_eq_true, beq_iff_eq] at this
  exact this ⟨hc.1, hc.2⟩

theorem tagLookup_append_of_some {u : UserId} {n : String} {l1 l2 : List Tag}
    {t : Tag} (h : tagLookup u n l1 = some t) :
    tagLookup u n (l1 ++ l2) = some t := by
  rw [tagLookup, List.find?_append]
  rw [tagLookup] at h
  rw [h]
  rfl

theorem tagLookup_self (u : UserId) (n : String) (i : TagId) :
    tagLookup u n [⟨i, u, n⟩] = some ⟨i, u, n⟩ := by
  simp [tagLookup, List.find?]

theorem Tag_get_or_create_spec (u : UserId) (n : String) (db : DB) :
    (Tag_get_or_create u n db).1.user = u ∧
    (Tag_get_or_create u n db).1.name = n ∧
    (Tag_get_or_create u n db).1 ∈ (Tag_get_or_create u n db).2.tags ∧
    (Tag_get_or_create u n db).2.recipes = db.recipes ∧
    (Tag_get_or_create u n db).2.ingredients = db.ingredients ∧
    ∃ ext : List Tag, (Tag_get_or_create u n db).2.tags = db.tags ++ ext := by
  rw [Tag_get_or_create]
  cases h : tagLookup u n db.tags with
  | some t =>
    have hs := tagLookup_some h
    exact ⟨hs.2.1, hs.2.2, hs.1, rfl, rfl, [], (List.append_nil _).symm⟩
  | none =>
    refine ⟨rfl, rfl, ?_, rfl, rfl, [⟨db.nextTagId, u, n⟩], rfl⟩
    exact List.mem_append_right _ (List.mem_singleton_self _)

theorem Tag_get_or_create_found {u : UserId} {n : String} {db : DB} {t : Tag}
    (h : tagLookup u n db.tags = some t) :
    Tag_get_or_create u n db = (t, db) := by
  rw [Tag_get_or_create, h]

/-! ## Structural lemmas about recipes and state updates -/

theorem addTag_id (r : Recipe) (tid : TagId) : (r.addTag tid).id = r.id := by
  rw [Recipe.addTag]; split <;> rfl

theorem addTag_frame (r : Recipe) (tid : TagId) :
    (r.addTag tid).user = r.user ∧ (r.addTag tid).title = r.title ∧
    (r.addTag tid).time_minutes = r.time_minutes ∧
    (r.addTag tid).price = r.price ∧
    (r.addTag tid).description = r.description ∧
    (r.addTag tid).link = r.link ∧
    (r.addTag tid).ingredients = r.ingredients := by
  rw [Recipe.addTag]; split <;> exact ⟨rfl, rfl, rfl, rfl, rfl, rfl, rfl⟩

theorem addTag_mem (r : Recipe) (tid : TagId) (x : TagId) :
    x ∈ (r.addTag tid).tags ↔ x ∈ r.tags ∨ x = tid := by
  rw [Recipe.addTag]
  split
  · rename_i hmem
    constructor
    · exact fun hx => Or.inl hx
    · rintro (hx | hx)
      · exact hx
      · exact hx ▸ hmem
  · simp [List.mem_append]

theorem addTag_mem_self (r : Recipe) (tid : TagId) :
    tid ∈ (r.addTag tid).tags :=
  (addTag_mem r tid tid).2 (Or.inr rfl)

theorem applyScalars_spec (r : Recipe) (p : ScalarPayload) :
    (applyScalars r p).id = r.id ∧ (applyScalars r p).user = r.user ∧
    (applyScalars r p).tags = r.tags ∧
    (applyScalars r p).ingredients = r.ingredients ∧
    (applyScalars r p).title = p.title.getD r.title ∧
    (applyScalars r p).time_minutes = p.time_minutes.getD r.time_minutes ∧
    (applyScalars r p).price = p.price.getD r.price ∧
    (applyScalars r p).description = p.description.getD r.description ∧
    (applyScalars r p).link = p.link.getD r.link := by
  obtain ⟨t, tm, pr, d, li⟩ := p
  rw [applyScalars]
  cases t <;> cases tm <;> cases pr <;> cases d <;> cases li <;>
    exact ⟨rfl, rfl, rfl, rfl, rfl, rfl, rfl, rfl, rfl⟩

theorem mapRecipe_tags (rid : RecipeId) (f : Recipe → Recipe) (db : DB) :
    (mapRecipe rid f db).tags = db.tags := rfl

theorem mapRecipe_ingredients (rid : RecipeId) (f : Recipe → Recipe)
    (db : DB) : (mapRecipe rid f db).ingredients = db.ingredients := rfl

theorem findRecipe_mapRecipe (rid : RecipeId) (f : Recipe → Recipe)
    (hf : ∀ r, (f r).id = r.id) (db : DB) :
    findRecipe rid (mapRecipe rid f db) = (findRecipe rid db).map f := by
  rw [findRecipe, findRecipe, mapRecipe]
  show (db.recipes.map fun r => if r.id = rid then f r else r).find?
      (fun r => r.id == rid)
    = (db.recipes.find? (fun r => r.id == rid)).map f
  induction db.recipes with
  | nil => rfl
  | cons a t ih =>
    rw [List.map_cons]
    by_cases ha : a.id = rid
    · rw [if_pos ha]
      rw [List.find?_cons_of_pos _ (by simp [hf, ha]),
        List.find?_cons_of_pos _ (by simp [ha])]
      rfl
    · rw [if_neg ha]
      rw [List.find?_cons_of_neg _ (by simp [ha]),
        List.find?_cons_of_neg _ (by simp [ha])]
      exact ih

/-! ## Unfolding equations and invariants of get_or_create_tags -/

theorem gct_nil (u : UserId) (rid : RecipeId) (db : DB) :
    get_or_create_tags u [] rid db = (db, []) := rfl

theorem gct_cons (u : UserId) (n : String) (rest : List String)
    (rid : RecipeId) (db : DB) :
    get_or_create_tags u (n :: rest) rid db =
      ((get_or_create_tags u rest rid
          (mapRecipe rid (fun r => r.addTag (Tag_get_or_create u n db).1.id)
            (Tag_get_or_create u n db).2)).1,
       (Tag_get_or_create u n db).1.id ::
         (get_or_create_tags u rest rid
          (mapRecipe rid (fun r => r.addTag (Tag_get_or_create u n db).1.id)
            (Tag_get_or_create u n db).2)).2) := rfl

theorem gct_tags_append (u : UserId) (L : List String) :
    ∀ (rid : RecipeId) (db : DB),
      ∃ ext : List Tag,
        (get_or_create_tags u L rid db).1.tags = db.tags ++ ext := by
  induction L with
  | nil => intro rid db; exact ⟨[], (List.append_nil _).symm⟩
  | cons n rest ih =>
    intro rid db
    rw [gct_cons]
    obtain ⟨e1, he1⟩ := (Tag_get_or_create_spec u n db).2.2.2.2.2
    obtain ⟨e2, he2⟩ := ih rid
      (mapRecipe rid (fun r => r.addTag (Tag_get_or_create u n db).1.id)
        (Tag_get_or_create u n db).2)
    refine ⟨e1 ++ e2, ?_⟩
    rw [he2, mapRecipe_tags, he1, List.append_assoc]

theorem gct_tags_mem_mono (u : UserId) (L : List String) (rid : RecipeId)
    (db : DB) {t : Tag} (h : t ∈ db.tags) :
    t ∈ (get_or_create_tags u L rid db).1.tags := by
  obtain ⟨ext, hext⟩ := gct_tags_append u L rid db
  rw [hext]
  exact List.mem_append_left ext h

theorem gct_tagLookup_mono (u u2 : UserId) (L : List String) (rid : RecipeId)
    (db : DB) {n : String} {t : Tag} (h : tagLookup u2 n db.tags = some t) :
    tagLookup u2 n (get_or_create_tags u L rid db).1.tags = some t := by
  obtain ⟨ext, hext⟩ := gct_tags_append u L rid db
  rw [hext]
  exact tagLookup_append_of_some h

theorem Tag_get_or_create_lookup (u : UserId) (n : String) (db : DB) :
    ∃ t, tagLookup u n (Tag_get_or_create u n db).2.tags = some t := by
  rw [Tag_get_or_create]
  cases h : tagLookup u n db.tags with
  | some t => exact ⟨t, h⟩
  | none =>
    refine ⟨⟨db.nextTagId, u, n⟩, ?_⟩
    show tagLookup u n (db.tags ++ [⟨db.nextTagId, u, n⟩]) = _
    rw [tagLookup, List.find?_append]
    rw [tagLookup] at h
    rw [h, Option.none_or]
    exact tagLookup_self u n db.nextTagId

theorem gct_lookup_isSome (u : UserId) (L : List String) :
    ∀ (rid : RecipeId) (db : DB) (n : String), n ∈ L →
      ∃ t, tagLookup u n (get_or_create_tags u L rid db).1.tags = some t := by
  induction L with
  | nil => intro rid db n hn; exact absurd hn (List.not_mem_nil n)
  | cons m rest ih =>
    intro rid db n hn
    rw [gct_cons]
    rcases List.mem_cons.1 hn with hnm | hnr
    · subst hnm
      obtain ⟨t, ht⟩ := Tag_get_or_create_lookup u n db
      refine ⟨t, gct_tagLookup_mono u u rest rid _ ?_⟩
      rw [mapRecipe_tags]
      exact ht
    · exact ih rid _ n hnr

theorem gct_tags_noop (u : UserId) (L : List String) :
    ∀ (rid : RecipeId) (db : DB),
      (∀ n ∈ L, ∃ t, tagLookup u n db.tags = some t) →
      (get_or_create_tags u L rid db).1.tags = db.tags := by
  induction L with
  | nil => intro rid db _; rfl
  | cons m rest ih =>
    intro rid db h
    obtain ⟨t, ht⟩ := h m (List.mem_cons_self m rest)
    rw [gct_cons, Tag_get_or_create_found ht]
    dsimp only
    refine Eq.trans (ih rid (mapRecipe rid (fun r => r.addTag t.id) db) ?_) rfl
    intro n hn
    rw [mapRecipe_tags]
    exact h n (List.mem_cons_of_mem m hn)

theorem gct_nodup_pairs (u : UserId) (L : List String) :
    ∀ (rid : RecipeId) (db : DB), (tagPairs db.tags).Nodup →
      (tagPairs (get_or_create_tags u L rid db).1.tags).Nodup := by
  induction L with
  | nil => intro rid db h; exact h
  | cons m rest ih =>
    intro rid db h
    rw [gct_cons]
    apply ih
    rw [mapRecipe_tags]
    rw [Tag_get_or_create]
    cases hl : tagLookup u m db.tags with
    | some t => exact h
    | none =>
      dsimp only
      simp only [tagPairs, List.map_append, List.map_cons, List.map_nil]
      rw [List.nodup_append]
      refine ⟨h, List.nodup_singleton _, ?_⟩
      intro p hp hp2
      have hpm : p = (u, m) := List.mem_singleton.1 hp2
      obtain ⟨t, htmem, htp⟩ := List.mem_map.1 hp
      rw [hpm, Prod.mk.injEq] at htp
      exact tagLookup_none hl t htmem htp

theorem findRecipe_congr {db1 db2 : DB} (rid : RecipeId)
    (h : db1.recipes = db2.recipes) :
    findRecipe rid db1 = findRecipe rid db2 := by
  rw [findRecipe, findRecipe, h]

/-- Effect of get_or_create_tags on the target recipe: its identity, owner,
scalar fields and ingredient set are untouched; its tag set only grows, and
only by references that resolve one of the supplied names; every supplied
name ends up attached through a tag row owned by the resolving user. -/
theorem gct_recipe_evolution (u : UserId) (L : List String) :
    ∀ (rid : RecipeId) (db : DB) (r : Recipe), findRecipe rid db = some r →
      ∃ rr, findRecipe rid (get_or_create_tags u L rid db).1 = some rr ∧
        rr.id = r.id ∧ rr.user = r.user ∧ rr.title = r.title ∧
        rr.time_minutes = r.time_minutes ∧ rr.price = r.price ∧
        rr.description = r.description ∧ rr.link = r.link ∧
        rr.ingredients = r.ingredients ∧
        (∀ tid ∈ r.tags, tid ∈ rr.tags) ∧
        (∀ tid ∈ rr.tags, tid ∈ r.tags ∨ ∃ n ∈ L,
          ∃ t ∈ (get_or_create_tags u L rid db).1.tags,
            t.id = tid ∧ t.user = u ∧ t.name = n) ∧
        (∀ n ∈ L, ∃ t ∈ (get_or_create_tags u L rid db).1.tags,
            t.user = u ∧ t.name = n ∧ t.id ∈ rr.tags) := by
  induction L with
  | nil =>
    intro rid db r h
    refine ⟨r, h, rfl, rfl, rfl, rfl, rfl, rfl, rfl, rfl,
      fun tid ht => ht, fun tid ht => Or.inl ht, ?_⟩
    intro n hn
    exact absurd hn (List.not_mem_nil n)
  | cons m rest ih =>
    intro rid db r h
    rw [gct_cons]
    dsimp only
    obtain ⟨tcu, tcn, tcmem, tcrec, tcing, tcext⟩ := Tag_get_or_create_spec u m db
    have hfind2 : findRecipe rid (Tag_get_or_create u m db).2 = some r := by
      rw [findRecipe_congr rid tcrec]
      exact h
    have hfind3 : findRecipe rid
        (mapRecipe rid (fun q => q.addTag (Tag_get_or_create u m db).1.id)
          (Tag_get_or_create u m db).2)
        = some (r.addTag (Tag_get_or_create u m db).1.id) := by
      rw [findRecipe_mapRecipe _ _ (fun q => addTag_id q _) _, hfind2]
      rfl
    obtain ⟨rr, hfr, hid, huser, htitle, htm, hpr, hd, hlnk, hingr,
      hsuper, hbound, hall⟩ := ih rid _ _ hfind3
    have hframe := addTag_frame r (Tag_get_or_create u m db).1.id
    have hmemS : (Tag_get_or_create u m db).1 ∈
        (get_or_create_tags u rest rid
          (mapRecipe rid (fun q => q.addTag (Tag_get_or_create u m db).1.id)
            (Tag_get_or_create u m db).2)).1.tags := by
      apply gct_tags_mem_mono
      rw [mapRecipe_tags]
      exact tcmem
    refine ⟨rr, hfr, hid.trans (addTag_id r _), huser.trans hframe.1,
      htitle.trans hframe.2.1, htm.trans hframe.2.2.1,
      hpr.trans hframe.2.2.2.1, hd.trans hframe.2.2.2.2.1,
      hlnk.trans hframe.2.2.2.2.2.1, hingr.trans hframe.2.2.2.2.2.2,
      ?_, ?_, ?_⟩
    · intro tid ht
      exact hsuper tid ((addTag_mem r _ tid).2 (Or.inl ht))
    · intro tid ht
      rcases hbound tid ht with h1 | ⟨n, hnr, t, htS, hteq⟩
      · rcases (addTag_mem r _ tid).1 h1 with h2 | h2
        · exact Or.inl h2
        · exact Or.inr ⟨m, List.mem_cons_self m rest,
            (Tag_get_or_create u m db).1, hmemS, h2.symm, tcu, tcn⟩
      · exact Or.inr ⟨n, List.mem_cons_of_mem m hnr, t, htS, hteq⟩
    · intro n hn2
      rcases List.mem_cons.1 hn2 with rfl | hnr
      · exact ⟨(Tag_get_or_create u n db).1, hmemS, tcu, tcn,
          hsuper _ (addTag_mem_self r _)⟩
      · exact hall n hnr

/-! ## Unfolding equations for the endpoint operations -/

theorem update_some (rid : RecipeId) (L : List String) (p : ScalarPayload)
    (u : UserId) (db : DB) :
    RecipeSerializer_update rid (some L) p u db =
      mapRecipe rid (fun q => applyScalars q p)
        (get_or_create_tags u L rid
          (mapRecipe rid (fun q => { q with tags := [] }) db)).1 := rfl

theorem update_none (rid : RecipeId) (p : ScalarPayload) (u : UserId)
    (db : DB) :
    RecipeSerializer_update rid none p u db =
      mapRecipe rid (fun q => applyScalars q p) db := rfl

theorem create_unfold (u : UserId) (f : RecipeFields) (tags : List String)
    (db : DB) :
    RecipeSerializer_create u f tags db =
      (db.nextRecipeId,
        (get_or_create_tags u tags db.nextRecipeId
          { db with
            recipes := db.recipes ++
              [⟨db.nextRecipeId, u, f.title, f.time_minutes, f.price,
                f.description, f.link, [], []⟩],
            nextRecipeId := db.nextRecipeId + 1 }).1) := rfl

/-! ## Concrete fixture states, mirroring the scenarios of the test files -/

/-- Tag Vegan owned by user 1. -/
def exVegan : Tag := ⟨10, 1, "Vegan"⟩

/-- Tag Dessert owned by user 1, attached to no recipe. -/
def exDessert : Tag := ⟨11, 1, "Dessert"⟩

/-- Tag Fruit owned by user 2. -/
def exFruit : Tag := ⟨12, 2, "Fruit"⟩

/-- Recipe of user 1 with the Vegan tag attached. -/
def exRecipe1 : Recipe := ⟨100, 1, "Test Recipe", 5, 399, "", "", [10], []⟩

/-- Recipe of user 2. -/
def exRecipe2 : Recipe := ⟨101, 2, "Other Recipe", 10, 499, "", "", [], []⟩

/-- Fixture state with two users. -/
def exDB : DB := ⟨[exVegan, exDessert, exFruit], [], [exRecipe1, exRecipe2], 13, 102⟩

/-- Fresh state with no rows. -/
def emptyDB : DB := ⟨[], [], [], 0, 0⟩

/-- Scalar payload of the create scenario in the spec. -/
def exFields : RecipeFields := ⟨"Soup", 5, 399, "", ""⟩

/-- Update payload with every scalar key absent. -/
def noScalars : ScalarPayload := ⟨none, none, none, none, none⟩

/-! ## Claim theorems -/

/-- C1: the spec says listing tags with assignedOnly=true returns exactly
the tags of the owner attached to at least one of the owner recipes, but
TagViewSet.get_queryset never reads the assigned_only request parameter: in
a state where tag Dessert (id 11) of user 1 is attached to no stored
recipe, the listing evaluated with assigned_only set still returns Dessert.
The repository tests test_filter_tags_assigned_to_recipes and
test_filtered_tags_unique assert the spec behaviour, so the code
contradicts its own tests. -/
theorem C1_assigned_only_ignored :
    exDessert ∈ TagViewSet_get_queryset 1 true exDB ∧
    exDB.recipes = [exRecipe1, exRecipe2] ∧
    exDessert.id ∉ exRecipe1.tags ∧ exDessert.id ∉ exRecipe2.tags := by
  refine ⟨?_, rfl, by decide, by decide⟩
  apply (perm_sortDescBy (fun q : Tag => q.name) _).mem_iff.2
  decide

/-- C2: the resolver is idempotent and never produces duplicate
(user, name) tag rows: when the stored state has no duplicate pair, the
state after resolving any list of names has none, and resolving the same
list again leaves the tag table exactly as it was (no new rows). -/
theorem C2_resolver_idempotent (u : UserId) (L : List String)
    (rid : RecipeId) (db : DB) (h : (tagPairs db.tags).Nodup) :
    (tagPairs (get_or_create_tags u L rid db).1.tags).Nodup ∧
    (get_or_create_tags u L rid (get_or_create_tags u L rid db).1).1.tags
      = (get_or_create_tags u L rid db).1.tags := by
  refine ⟨gct_nodup_pairs u L rid db h, ?_⟩
  apply gct_tags_noop
  intro n hn
  exact gct_lookup_isSome u L rid db n hn

theorem C2_witness :
    (tagPairs emptyDB.tags).Nodup ∧
    ((tagPairs (get_or_create_tags 1 ["Vegan", "Vegan", "Dessert"] 100
        emptyDB).1.tags).Nodup ∧
      (get_or_create_tags 1 ["Vegan", "Vegan", "Dessert"] 100
        (get_or_create_tags 1 ["Vegan", "Vegan", "Dessert"] 100
          emptyDB).1).1.tags
       = (get_or_create_tags 1 ["Vegan", "Vegan", "Dessert"] 100
          emptyDB).1.tags) :=
  ⟨by decide,
    C2_resolver_idempotent 1 ["Vegan", "Vegan", "Dessert"] 100 emptyDB
      (by decide)⟩

/-- C4: listings are scoped to the requesting user: for distinct users the
recipe listing and the tag listing (under either value of the
assigned_only flag) of the first user never contain an entity owned by the
second. -/
theorem C4_user_scoping (u1 u2 : UserId) (b : Bool) (db : DB)
    (h : u1 ≠ u2) :
    (∀ r ∈ RecipeViewSet_get_queryset u1 db, r.user ≠ u2) ∧
    (∀ t ∈ TagViewSet_get_queryset u1 b db, t.user ≠ u2) := by
  constructor
  · intro r hr
    have hm : r ∈ db.recipes.filter (fun q => q.user == u1) :=
      (perm_sortDescBy (fun q : Recipe => q.id) _).mem_iff.1 hr
    have hu : r.user = u1 := by simpa using (List.mem_filter.1 hm).2
    rw [hu]
    exact h
  · intro t ht
    have hm : t ∈ db.tags.filter (fun q => q.user == u1) :=
      (perm_sortDescBy (fun q : Tag => q.name) _).mem_iff.1 ht
    have hu : t.user = u1 := by simpa using (List.mem_filter.1 hm).2
    rw [hu]
    exact h

theorem C4_witness :
    (1 : UserId) ≠ 2 ∧
    (∀ r ∈ RecipeViewSet_get_queryset 1 exDB, r.user ≠ 2) :=
  ⟨by decide, (C4_user_scoping 1 2 true exDB (by decide)).1⟩

/-- C3: tag-update semantics of RecipeSerializer.update: an explicitly
provided tag list (including the empty one) first clears the instance tag
set and repopulates it from the provided names via the resolver, so an
explicit empty list leaves zero tags and, in general, every remaining
reference resolves one of the provided names and every provided name ends
up attached; an omitted tags key leaves the existing tag set untouched. -/
theorem C3_update_tags (rid : RecipeId) (u : UserId) (p : ScalarPayload)
    (db : DB) (r : Recipe) (L : List String)
    (h : findRecipe rid db = some r) :
    (∃ r0, findRecipe rid (RecipeSerializer_update rid (some []) p u db)
        = some r0 ∧ r0.tags = []) ∧
    (∃ r1, findRecipe rid (RecipeSerializer_update rid none p u db)
        = some r1 ∧ r1.tags = r.tags) ∧
    (∃ r2, findRecipe rid (RecipeSerializer_update rid (some L) p u db)
        = some r2 ∧
      (∀ tid ∈ r2.tags, ∃ n ∈ L,
        ∃ t ∈ (RecipeSerializer_update rid (some L) p u db).tags,
          t.id = tid ∧ t.user = u ∧ t.name = n) ∧
      (∀ n ∈ L, ∃ t ∈ (RecipeSerializer_update rid (some L) p u db).tags,
          t.user = u ∧ t.name = n ∧ t.id ∈ r2.tags)) := by
  have key : ∀ M : List String, ∃ r2,
      findRecipe rid (RecipeSerializer_update rid (some M) p u db)
        = some r2 ∧
      (∀ tid ∈ r2.tags, ∃ n ∈ M,
        ∃ t ∈ (RecipeSerializer_update rid (some M) p u db).tags,
          t.id = tid ∧ t.user = u ∧ t.name = n) ∧
      (∀ n ∈ M, ∃ t ∈ (RecipeSerializer_update rid (some M) p u db).tags,
          t.user = u ∧ t.name = n ∧ t.id ∈ r2.tags) := by
    intro M
    have hclear : findRecipe rid
        (mapRecipe rid (fun q => { q with tags := [] }) db)
        = some { r with tags := [] } := by
      rw [findRecipe_mapRecipe rid (fun q => { q with tags := [] })
        (fun q => rfl) db, h]
      rfl
    obtain ⟨rr, hfr, _, _, _, _, _, _, _, _, hsuper, hbound, hall⟩ :=
      gct_recipe_evolution u M rid _ _ hclear
    refine ⟨applyScalars rr p, ?_, ?_, ?_⟩
    · rw [update_some,
        findRecipe_mapRecipe _ _ (fun q => (applyScalars_spec q p).1) _, hfr]
      rfl
    · intro tid htid
      rw [(applyScalars_spec rr p).2.2.1] at htid
      rcases hbound tid htid with h0 | ⟨n, hnm, t, htmem, hts⟩
      · exact absurd h0 (List.not_mem_nil tid)
      · refine ⟨n, hnm, t, ?_, hts⟩
        rw [update_some, mapRecipe_tags]
        exact htmem
    · intro n hn
      obtain ⟨t, htmem, htu, htn, hid⟩ := hall n hn
      refine ⟨t, ?_, htu, htn, ?_⟩
      · rw [update_some, mapRecipe_tags]
        exact htmem
      · rw [(applyScalars_spec rr p).2.2.1]
        exact hid
  refine ⟨?_, ?_, key L⟩
  · obtain ⟨r0, hf0, hb0, _⟩ := key []
    refine ⟨r0, hf0, List.eq_nil_iff_forall_not_mem.2 ?_⟩
    intro tid htid
    obtain ⟨n, hn, _⟩ := hb0 tid htid
    exact absurd hn (List.not_mem_nil n)
  · refine ⟨applyScalars r p, ?_, (applyScalars_spec r p).2.2.1⟩
    rw [update_none,
      findRecipe_mapRecipe _ _ (fun q => (applyScalars_spec q p).1) _, h]
    rfl

theorem C3_witness :
    findRecipe 100 exDB = some exRecipe1 ∧
    (∃ r0, findRecipe 100 (RecipeSerializer_update 100 (some []) noScalars 1
        exDB) = some r0 ∧ r0.tags = []) :=
  ⟨by decide,
    (C3_update_tags 100 1 noScalars exDB exRecipe1 ["Spicy"] (by decide)).1⟩

/-- C5 counterexample: the claim as stated requires create to resolve
ingredient_names and attach the resulting references, but create invoked
with the ingredient name Salt leaves the ingredient table empty and
produces a recipe with an empty ingredient set: RecipeSerializer has no
ingredients field and RecipeSerializer.create never touches ingredients. -/
theorem C5_ingredient_names_dropped :
    (postRecipe 1 exFields ["Spicy"] ["Salt"] emptyDB).2.ingredients = [] ∧
    findRecipe (postRecipe 1 exFields ["Spicy"] ["Salt"] emptyDB).1
      (postRecipe 1 exFields ["Spicy"] ["Salt"] emptyDB).2
      = some ⟨0, 1, "Soup", 5, 399, "", "", [0], []⟩ := by
  decide

/-- C5 amended: create persists a new Recipe owned by the caller carrying
the given scalar fields, resolves the tag names against the caller and
attaches every one of them, and the recipe references only tags resolved
from the supplied names; the ingredient_names of the payload are discarded
(the serializer has no ingredients field), so the new recipe ingredient set
is empty. -/
theorem C5_create_assembles (u : UserId) (f : RecipeFields)
    (tns ins : List String) (db : DB)
    (hfresh : ∀ q ∈ db.recipes, q.id ≠ db.nextRecipeId) :
    ∃ rr, findRecipe (postRecipe u f tns ins db).1
        (postRecipe u f tns ins db).2 = some rr ∧
      rr.user = u ∧ rr.title = f.title ∧
      rr.time_minutes = f.time_minutes ∧ rr.price = f.price ∧
      rr.description = f.description ∧ rr.link = f.link ∧
      rr.ingredients = [] ∧
      (∀ n ∈ tns, ∃ t ∈ (postRecipe u f tns ins db).2.tags,
          t.user = u ∧ t.name = n ∧ t.id ∈ rr.tags) ∧
      (∀ tid ∈ rr.tags, ∃ n ∈ tns,
        ∃ t ∈ (postRecipe u f tns ins db).2.tags,
          t.id = tid ∧ t.user = u ∧ t.name = n) := by
  have hfind1 : findRecipe db.nextRecipeId
      { db with
        recipes := db.recipes ++
          [⟨db.nextRecipeId, u, f.title, f.time_minutes, f.price,
            f.description, f.link, [], []⟩],
        nextRecipeId := db.nextRecipeId + 1 }
      = some ⟨db.nextRecipeId, u, f.title, f.time_minutes, f.price,
          f.description, f.link, [], []⟩ := by
    rw [findRecipe]
    show (db.recipes ++ [_]).find? _ = _
    rw [List.find?_append]
    have hnone : db.recipes.find? (fun q => q.id == db.nextRecipeId)
        = none := by
      rw [List.find?_eq_none]
      intro x hx
      simpa using hfresh x hx
    rw [hnone, Option.none_or, List.find?_cons_of_pos _ (by simp)]
  obtain ⟨rr, hfr, hid, huser, htitle, htm, hpr, hd, hlnk, hingr,
    hsuper, hbound, hall⟩ :=
    gct_recipe_evolution u tns db.nextRecipeId _ _ hfind1
  refine ⟨rr, hfr, huser, htitle, htm, hpr, hd, hlnk, hingr, ?_, ?_⟩
  · intro n hn
    obtain ⟨t, htmem, htu, htn, htid⟩ := hall n hn
    exact ⟨t, htmem, htu, htn, htid⟩
  · intro tid htid
    rcases hbound tid htid with h0 | ⟨n, hn, t, htmem, hts⟩
    · exact absurd h0 (List.not_mem_nil tid)
    · exact ⟨n, hn, t, htmem, hts⟩

theorem C5_witness :
    (∀ q ∈ emptyDB.recipes, q.id ≠ emptyDB.nextRecipeId) ∧
    (∃ rr, findRecipe (postRecipe 1 exFields ["Spicy"] [] emptyDB).1
        (postRecipe 1 exFields ["Spicy"] [] emptyDB).2 = some rr ∧
      rr.user = 1 ∧ rr.title = exFields.title ∧
      rr.time_minutes = exFields.time_minutes ∧ rr.price = exFields.price ∧
      rr.description = exFields.description ∧ rr.link = exFields.link ∧
      rr.ingredients = [] ∧
      (∀ n ∈ ["Spicy"], ∃ t ∈ (postRecipe 1 exFields ["Spicy"] []
          emptyDB).2.tags, t.user = 1 ∧ t.name = n ∧ t.id ∈ rr.tags) ∧
      (∀ tid ∈ rr.tags, ∃ n ∈ ["Spicy"],
        ∃ t ∈ (postRecipe 1 exFields ["Spicy"] [] emptyDB).2.tags,
          t.id = tid ∧ t.user = 1 ∧ t.name = n)) :=
  ⟨by decide,
    C5_create_assembles 1 exFields ["Spicy"] [] emptyDB (by decide)⟩

/-- C6: the resolver yields one reference per input name, in input order:
the list of per-iteration tag_obj references has the same length as the
name list, and the reference at position i is the id of a tag row of the
final state owned by the resolving user whose name is the i-th input name;
duplicate input names therefore yield duplicate references. -/
theorem C6_resolver_order (u : UserId) (L : List String) :
    ∀ (rid : RecipeId) (db : DB),
      (get_or_create_tags u L rid db).2.length = L.length ∧
      ∀ (i : Nat) (hi : i < L.length)
        (ho : i < (get_or_create_tags u L rid db).2.length),
        ∃ t ∈ (get_or_create_tags u L rid db).1.tags,
          t.id = (get_or_create_tags u L rid db).2.get ⟨i, ho⟩ ∧
          t.user = u ∧ t.name = L.get ⟨i, hi⟩ := by
  induction L with
  | nil =>
    intro rid db
    exact ⟨rfl, fun i hi ho => absurd hi (Nat.not_lt_zero i)⟩
  | cons m rest ih =>
    intro rid db
    rw [gct_cons]
    dsimp only
    constructor
    · rw [List.length_cons, (ih rid _).1, List.length_cons]
    · intro i hi ho
      cases i with
      | zero =>
        obtain ⟨tcu, tcn, tcmem, _, _, _⟩ := Tag_get_or_create_spec u m db
        refine ⟨(Tag_get_or_create u m db).1, ?_, rfl, tcu, tcn⟩
        apply gct_tags_mem_mono
        rw [mapRecipe_tags]
        exact tcmem
      | succ j =>
        exact (ih rid _).2 j (Nat.lt_of_succ_lt_succ hi)
          (Nat.lt_of_succ_lt_succ ho)

theorem C6_witness :
    (get_or_create_tags 1 ["Vegan", "Vegan"] 100 emptyDB).2.length = 2 ∧
    (∃ t ∈ (get_or_create_tags 1 ["Vegan", "Vegan"] 100 emptyDB).1.tags,
      t.id = (get_or_create_tags 1 ["Vegan", "Vegan"] 100
          emptyDB).2.get ⟨0, by decide⟩ ∧
      t.user = 1 ∧ t.name = (["Vegan", "Vegan"] : List String).get
        ⟨0, by decide⟩) :=
  ⟨(C6_resolver_order 1 ["Vegan", "Vegan"] 100 emptyDB).1,
    (C6_resolver_order 1 ["Vegan", "Vegan"] 100 emptyDB).2 0 (by decide)
      (by decide)⟩

/-- C7: a cross-user update attempt fails as a lookup miss: when a recipe
belongs to user a and a different user b issues the update, the object
lookup inside the b-scoped queryset finds nothing, the endpoint reports
not-found (false) and the state is returned unchanged, so no field or
relation of the recipe is mutated. -/
theorem C7_cross_user_update_rejected (a b : UserId) (r : Recipe) (db : DB)
    (tags : Option (List String)) (p : ScalarPayload)
    (hnd : (db.recipes.map Recipe.id).Nodup)
    (hr : r ∈ db.recipes) (hra : r.user = a) (hab : b ≠ a) :
    RecipeViewSet_update_action b r.id tags p db = (db, false) := by
  have hnone : RecipeViewSet_get_object b r.id db = none := by
    rw [RecipeViewSet_get_object, List.find?_eq_none]
    intro x hx hpx
    have hxf : x ∈ db.recipes.filter (fun q => q.user == b) :=
      (perm_sortDescBy (fun q : Recipe => q.id) _).mem_iff.1 hx
    have hxm := List.mem_filter.1 hxf
    have hxu : x.user = b := by simpa using hxm.2
    have hxid : x.id = r.id := by simpa using hpx
    have hxr : x = r := List.inj_on_of_nodup_map hnd hxm.1 hr hxid
    rw [hxr, hra] at hxu
    exact hab hxu.symm
  rw [RecipeViewSet_update_action, hnone]

theorem C7_witness :
    ((exDB.recipes.map Recipe.id).Nodup ∧ exRecipe2 ∈ exDB.recipes ∧
      exRecipe2.user = 2 ∧ (1 : UserId) ≠ 2) ∧
    RecipeViewSet_update_action 1 exRecipe2.id none noScalars exDB
      = (exDB, false) :=
  ⟨⟨by decide, by decide, by decide, by decide⟩,
    C7_cross_user_update_rejected 2 1 exRecipe2 exDB none noScalars
      (by decide) (by decide) (by decide) (by decide)⟩

/-- C8: PATCH semantics of the scalar fields: after an update, each scalar
field carries the payload value when its key is present and retains its
previous value when its key is absent, whether or not a tag list was
supplied alongside. -/
theorem C8_patch_scalars (rid : RecipeId) (u : UserId)
    (tags : Option (List String)) (p : ScalarPayload) (db : DB) (r : Recipe)
    (h : findRecipe rid db = some r) :
    ∃ rr, findRecipe rid (RecipeSerializer_update rid tags p u db)
        = some rr ∧
      rr.title = p.title.getD r.title ∧
      rr.time_minutes = p.time_minutes.getD r.time_minutes ∧
      rr.price = p.price.getD r.price ∧
      rr.description = p.description.getD r.description ∧
      rr.link = p.link.getD r.link := by
  cases tags with
  | none =>
    refine ⟨applyScalars r p, ?_, (applyScalars_spec r p).2.2.2.2.1,
      (applyScalars_spec r p).2.2.2.2.2.1,
      (applyScalars_spec r p).2.2.2.2.2.2.1,
      (applyScalars_spec r p).2.2.2.2.2.2.2.1,
      (applyScalars_spec r p).2.2.2.2.2.2.2.2⟩
    rw [update_none,
      findRecipe_mapRecipe _ _ (fun q => (applyScalars_spec q p).1) _, h]
    rfl
  | some L =>
    have hclear : findRecipe rid
        (mapRecipe rid (fun q => { q with tags := [] }) db)
        = some { r with tags := [] } := by
      rw [findRecipe_mapRecipe rid (fun q => { q with tags := [] })
        (fun q => rfl) db, h]
      rfl
    obtain ⟨rr, hfr, _, _, htitle, htm, hpr, hd, hlnk, _, _, _, _⟩ :=
      gct_recipe_evolution u L rid _ _ hclear
    refine ⟨applyScalars rr p, ?_,
      ((applyScalars_spec rr p).2.2.2.2.1).trans
        (congrArg (fun x => p.title.getD x) htitle),
      ((applyScalars_spec rr p).2.2.2.2.2.1).trans
        (congrArg (fun x => p.time_minutes.getD x) htm),
      ((applyScalars_spec rr p).2.2.2.2.2.2.1).trans
        (congrArg (fun x => p.price.getD x) hpr),
      ((applyScalars_spec rr p).2.2.2.2.2.2.2.1).trans
        (congrArg (fun x => p.description.getD x) hd),
      ((applyScalars_spec rr p).2.2.2.2.2.2.2.2).trans
        (congrArg (fun x => p.link.getD x) hlnk)⟩
    rw [update_some,
      findRecipe_mapRecipe _ _ (fun q => (applyScalars_spec q p).1) _, hfr]
    rfl

theorem C8_witness :
    findRecipe 100 exDB = some exRecipe1 ∧
    (∃ rr, findRecipe 100 (RecipeSerializer_update 100 none
        ⟨some "New", none, none, none, none⟩ 1 exDB) = some rr ∧
      rr.title = (some "New").getD exRecipe1.title ∧
      rr.time_minutes = (none : Option Nat).getD exRecipe1.time_minutes ∧
      rr.price = (none : Option Int).getD exRecipe1.price ∧
      rr.description = (none : Option String).getD exRecipe1.description ∧
      rr.link = (none : Option String).getD exRecipe1.link) :=
  ⟨by decide,
    C8_patch_scalars 100 1 none ⟨some "New", none, none, none, none⟩ exDB
      exRecipe1 (by decide)⟩

/-- C9: the recipe listing of a user contains exactly the stored recipes of
that user, ordered strictly descending by primary key (most recently
created first, since keys are assigned from a growing counter); strictness
plus the membership characterisation make the order uniquely determined by
the stored state. -/
theorem C9_recipe_listing_order (u : UserId) (db : DB)
    (h : (db.recipes.map Recipe.id).Nodup) :
    (RecipeViewSet_get_queryset u db).Pairwise (fun x y => y.id < x.id) ∧
    ∀ r : Recipe, r ∈ RecipeViewSet_get_queryset u db ↔
      (r ∈ db.recipes ∧ r.user = u) := by
  constructor
  · have hpw := pairwise_sortDescBy (fun q : Recipe => q.id)
      (db.recipes.filter (fun q => q.user == u))
    have hnd : ((db.recipes.filter (fun q => q.user == u)).map
        Recipe.id).Nodup :=
      List.Nodup.sublist
        (List.Sublist.map Recipe.id (List.filter_sublist db.recipes)) h
    have hnd2 : ((sortDescBy (fun q : Recipe => q.id)
        (db.recipes.filter (fun q => q.user == u))).map Recipe.id).Nodup :=
      (List.Perm.nodup_iff
        ((perm_sortDescBy (fun q : Recipe => q.id) _).map Recipe.id)).2 hnd
    exact pairwise_lt_of_le_of_nodup (fun q : Recipe => q.id) _ hpw hnd2
  · intro r
    constructor
    · intro hr
      have hm := (perm_sortDescBy (fun q : Recipe => q.id) _).mem_iff.1 hr
      have hm2 := List.mem_filter.1 hm
      exact ⟨hm2.1, by simpa using hm2.2⟩
    · rintro ⟨h1, h2⟩
      apply (perm_sortDescBy (fun q : Recipe => q.id) _).mem_iff.2
      exact List.mem_filter.2 ⟨h1, by simpa using h2⟩

theorem C9_witness :
    (exDB.recipes.map Recipe.id).Nodup ∧
    (RecipeViewSet_get_queryset 1 exDB).Pairwise (fun x y => y.id < x.id) :=
  ⟨by decide, (C9_recipe_listing_order 1 exDB (by decide)).1⟩

/-- C10: the list action serializes recipes through RecipeSerializer,
whose fields are exactly id, title, time_minutes, price, link, tags and
exclude description; every other action (retrieve, create, update) uses
RecipeDetailSerializer, which adds description; and the list endpoint
performs no write, so every stored description is unchanged by listing. -/
theorem C10_list_detail_fields :
    RecipeViewSet_get_serializer_class "list"
        = ["id", "title", "time_minutes", "price", "link", "tags"] ∧
    "description" ∉ RecipeViewSet_get_serializer_class "list" ∧
    (∀ a : String, a ≠ "list" →
      "description" ∈ RecipeViewSet_get_serializer_class a) ∧
    (∀ (uu : UserId) (db : DB), (RecipeViewSet_list uu db).1 = db) := by
  refine ⟨rfl, by decide, ?_, fun uu db => rfl⟩
  intro a ha
  rw [RecipeViewSet_get_serializer_class, if_neg ha]
  decide

theorem C10_witness :
    ("retrieve" : String) ≠ "list" ∧
    "description" ∈ RecipeViewSet_get_serializer_class "retrieve" :=
  ⟨by decide, C10_list_detail_fields.2.2.1 "retrieve" (by decide)⟩

end RecipeApp
